import Mathlib

/-!
Shallow embedding of the job-control core of `src/tj_shell.c` (TJ Shell).

The parent-side behaviour of the spawn loop is modelled as a pure function
from a kernel oracle (the wait statuses the parent would observe) to a
result code plus a trace of observable actions: pipe creations, forks and
synchronous waits.  Child-side behaviour (execvp success or failure) is
visible to the parent only through the wait status, exactly as in the C
code, so it lives entirely in the oracle.
-/

namespace TjShell

/-- Wait-status decoding as in glibc's `WEXITSTATUS`: bits 8..15 of the
raw status word returned by `waitpid`. -/
def WEXITSTATUS (s : Nat) : Nat := (s / 256) % 256

/-- Exit code `EXIT_FAILURE`; a child whose `execvp` fails calls
`_exit(EXIT_FAILURE)` (line 311 of the C source). -/
def EXIT_FAILURE : Nat := 1

/-- Embedding of `tokenize` (src/tj_shell.c:576): repeated `strtok` over a
single delimiter character yields the maximal non-empty segments between
delimiters, in order. -/
def tokenize (input : String) (delim : Char) : List String :=
  ((input.data.splitOn delim).filter (fun cs => !cs.isEmpty)).map (fun cs => String.mk cs)

/-- Kernel oracle: `status i` is the wait status that a synchronous
`waitpid` on the process spawned for stage `i` (1-based) observes. -/
structure OS where
  status : Nat → Nat

/-- Observable parent-side actions of the spawn loop of `fork_exec_wait`. -/
inductive Event where
  | createPipe (idx : Nat)
  | fork (stage : Nat) (argv : List String) (background : Bool)
  | wait (stage : Nat)
  | builtin (name : String)
deriving DecidableEq, Repr

/-- Recognizer for pipe-creation events. -/
def Event.isCreatePipe : Event → Bool
  | .createPipe _ => true
  | _ => false

/-- Recognizer for synchronous-wait events. -/
def Event.isWait : Event → Bool
  | .wait _ => true
  | _ => false

/-- Stage index of a fork event, if the event is a fork. -/
def forkStage : Event → Option Nat
  | .fork s _ _ => some s
  | _ => none

@[simp] lemma isCreatePipe_createPipe (i : Nat) :
    (Event.createPipe i).isCreatePipe = true := rfl
@[simp] lemma isCreatePipe_fork (s : Nat) (a : List String) (b : Bool) :
    (Event.fork s a b).isCreatePipe = false := rfl
@[simp] lemma isCreatePipe_wait (s : Nat) : (Event.wait s).isCreatePipe = false := rfl
@[simp] lemma isCreatePipe_builtin (n : String) :
    (Event.builtin n).isCreatePipe = false := rfl
@[simp] lemma isWait_createPipe (i : Nat) : (Event.createPipe i).isWait = false := rfl
@[simp] lemma isWait_fork (s : Nat) (a : List String) (b : Bool) :
    (Event.fork s a b).isWait = false := rfl
@[simp] lemma isWait_wait (s : Nat) : (Event.wait s).isWait = true := rfl
@[simp] lemma isWait_builtin (n : String) : (Event.builtin n).isWait = false := rfl
@[simp] lemma forkStage_createPipe (i : Nat) : forkStage (Event.createPipe i) = none := rfl
@[simp] lemma forkStage_fork (s : Nat) (a : List String) (b : Bool) :
    forkStage (Event.fork s a b) = some s := rfl
@[simp] lemma forkStage_wait (s : Nat) : forkStage (Event.wait s) = none := rfl
@[simp] lemma forkStage_builtin (n : String) : forkStage (Event.builtin n) = none := rfl

/-- Embedding of `fork_exec_wait` (src/tj_shell.c:268), parent side.
For the first command of a multi-command pipeline it creates the
`no_cmds - 1` pipes; it always forks; it waits synchronously only for a
foreground last command, in which case the observed status is the
oracle's, otherwise the local `status` variable keeps its initial 0.
The return value is -1 exactly when `!background` and
`WEXITSTATUS(status) == EXIT_FAILURE` (lines 324-328). -/
def fork_exec_wait (os : OS) (args : List String) (cmd no_cmds : Nat)
    (background : Bool) : Int × List Event :=
  let pipeEvents : List Event :=
    if 1 < no_cmds ∧ cmd = 1 then (List.range (no_cmds - 1)).map Event.createPipe else []
  let status : Nat :=
    if background = false ∧ cmd = no_cmds then os.status cmd else 0
  let waitEvents : List Event :=
    if background = false ∧ cmd = no_cmds then [Event.wait cmd] else []
  let ret : Int :=
    if background = false ∧ WEXITSTATUS status = EXIT_FAILURE then -1 else 0
  (ret, pipeEvents ++ [Event.fork cmd args background] ++ waitEvents)

/-- Embedding of `exec_cmd` (src/tj_shell.c:224): for a single-command
line, recognize built-ins by name and exact argument count, then handle a
trailing `&`; every other case falls through to `fork_exec_wait`.  A
built-in call is recorded as a `builtin` event (its body spawns nothing
through this path); a wrong argument count returns -1 with no action. -/
def exec_cmd (os : OS) (args : List String) (no_args cmd no_cmds : Nat) :
    Int × List Event :=
  if no_cmds = 1 then
    if args.headD "" = "cd" then
      if no_args = 1 ∨ no_args = 2 then (0, [Event.builtin "cd"]) else (-1, [])
    else if args.headD "" = "checkEnv" then
      if no_args ≤ 2 then (0, [Event.builtin "checkEnv"]) else (-1, [])
    else if args.headD "" = "exit" then
      if no_args = 1 then (0, [Event.builtin "exit"]) else (-1, [])
    else if args.headD "" = "fg" then
      if no_args = 2 then (0, [Event.builtin "fg"]) else (-1, [])
    else if args.getLastD "" = "&" then
      if 2 ≤ no_args then
        fork_exec_wait os (args.take (no_args - 1)) cmd no_cmds true
      else (-1, [])
    else fork_exec_wait os args cmd no_cmds false
  else fork_exec_wait os args cmd no_cmds false

/-- Embedding of the loop of `exec_cmdline` (src/tj_shell.c:197-211): run
the commands in order, starting at 0-based index `i`; a zero-argument
command or a -1 from `exec_cmd` stops the loop and makes `i + 1` the
failed command; otherwise the result of the rest of the loop stands. -/
def exec_stages (os : OS) (no_cmds : Nat) : List String → Nat → Nat × List Event
  | [], _ => (0, [])
  | c :: rest, i =>
    if (tokenize c ' ').length = 0 then (i + 1, [])
    else
      let p := exec_cmd os (tokenize c ' ') (tokenize c ' ').length (i + 1) no_cmds
      if p.1 = -1 then (i + 1, p.2)
      else
        let q := exec_stages os no_cmds rest (i + 1)
        (q.1, p.2 ++ q.2)

/-- Embedding of `exec_cmdline` (src/tj_shell.c:188): tokenize the line on
`|` and run the commands; returns the 1-based index of the failed command
(0 when none) together with the event trace. -/
def exec_cmdline (os : OS) (line : String) : Nat × List Event :=
  exec_stages os (tokenize line '|').length (tokenize line '|') 0

/-- Embedding of `get_env_cmd` (src/tj_shell.c:508): the command line the
`checkEnv` built-in composes, for filter argument `args[1]` and a pager. -/
def get_env_cmd (arg1 : Option String) (pager : String) : String :=
  match arg1 with
  | none => "printenv | sort | " ++ pager
  | some f => "printenv | sort | grep " ++ f ++ " | " ++ pager

/-- Embedding of `check_env` (src/tj_shell.c:413): choose the pager from
the `PAGER` environment value if set, else `less`; compose the listing
line and run it through `exec_cmdline`; if the run failed at its last
command (`no_cmds`, the pager stage) and the pager was `less`, rerun with
`more`.  Returns the executed lines paired with their `exec_cmdline`
results, in order. -/
def check_env (os : OS) (pagerEnv : Option String) (arg1 : Option String) :
    List (String × Nat) :=
  let no_cmds : Nat := if arg1 = none then 3 else 4
  let pager : String := match pagerEnv with | some p => p | none => "less"
  let line : String := get_env_cmd arg1 pager
  let r : Nat := (exec_cmdline os line).1
  if r = no_cmds ∧ pager = "less" then
    let line2 : String := get_env_cmd arg1 "more"
    [(line, r), (line2, (exec_cmdline os line2).1)]
  else [(line, r)]

/-- Observable actions of `c_wait` on the terminal and the child. -/
inductive TermEvent where
  | setFgPgrp (pgid : Nat)
  | sendCont (pid : Nat)
  | reportStatus (pid status : Nat)
  | reportRuntime
deriving DecidableEq, Repr

/-- Kernel-side data consulted by one `c_wait` call: the status its
blocking `waitpid` yields, whether that `waitpid` returned a pid (> 0),
and the process groups involved. -/
structure WaitKernel where
  waitStatus : Nat
  waitOk : Bool
  childPgid : Nat
  shellPgid : Nat

/-- Embedding of `c_wait` (src/tj_shell.c:358): with `cont` set it first
grants the terminal to the child's group and sends `SIGCONT`; it then
blocks in `waitpid` (with `WUNTRACED`, so a merely stopped child also
returns), reporting the status and, when a stopwatch was started, the
elapsed time; finally — on every path — it sets the terminal's foreground
group back to the shell's own group (line 377) and returns the status. -/
def c_wait (k : WaitKernel) (c_pid : Nat) (hasTimer cont : Bool) :
    Nat × List TermEvent :=
  let pre : List TermEvent :=
    if cont then [TermEvent.setFgPgrp k.childPgid, TermEvent.sendCont c_pid] else []
  let mid : List TermEvent :=
    if k.waitOk then
      [TermEvent.reportStatus c_pid k.waitStatus]
        ++ (if hasTimer then [TermEvent.reportRuntime] else [])
    else []
  (k.waitStatus, pre ++ mid ++ [TermEvent.setFgPgrp k.shellPgid])

/-- Embedding of `sigchld_handler` (src/tj_shell.c:77) against a kernel
model in which the pending child state changes form a queue of
(pid, status) pairs, each `waitpid(WAIT_ANY, WUNTRACED | WNOHANG)` call
dequeuing one pair and a call on an empty queue returning no pid.  The
handler loops while `waitpid` yields a pid, reporting each dequeued pair;
it returns the reported pairs and the remaining queue. -/
def sigchld_handler : List (Nat × Nat) → List (Nat × Nat) × List (Nat × Nat)
  | [] => ([], [])
  | e :: pending =>
    let p := sigchld_handler pending
    (e :: p.1, p.2)

/-! ### Computation lemmas for the spawn loop -/

/-- First command of a multi-command pipeline: creates the pipes, forks,
does not wait, succeeds. -/
lemma few_first (os : OS) (args : List String) (N : Nat) (h : 2 ≤ N) :
    fork_exec_wait os args 1 N false
      = (0, ((List.range (N - 1)).map Event.createPipe) ++ [Event.fork 1 args false]) := by
  have h1 : (1 : Nat) ≠ N := by omega
  have h2 : 1 < N := by omega
  simp [fork_exec_wait, h1, h2, WEXITSTATUS, EXIT_FAILURE]

/-- Middle command (index ≥ 2, not last): forks only, succeeds. -/
lemma few_mid (os : OS) (args : List String) (cmd N : Nat) (h1 : 2 ≤ cmd)
    (h2 : cmd ≠ N) : fork_exec_wait os args cmd N false = (0, [Event.fork cmd args false]) := by
  have hc : cmd ≠ 1 := by omega
  simp [fork_exec_wait, hc, h2, WEXITSTATUS, EXIT_FAILURE]

/-- Last command of a multi-command pipeline: forks, waits, and the
result is decided by the waited status alone. -/
lemma few_last (os : OS) (args : List String) (N : Nat) (h : 2 ≤ N) :
    fork_exec_wait os args N N false
      = ((if WEXITSTATUS (os.status N) = EXIT_FAILURE then (-1 : Int) else 0),
         [Event.fork N args false, Event.wait N]) := by
  have hc : N ≠ 1 := by omega
  simp [fork_exec_wait, hc]

/-- Single background command: forks, never waits, succeeds. -/
lemma few_single_bg (os : OS) (args : List String) :
    fork_exec_wait os args 1 1 true = (0, [Event.fork 1 args true]) := by
  simp [fork_exec_wait]

/-- Single foreground command: forks, waits, result decided by status. -/
lemma few_single_fg (os : OS) (args : List String) :
    fork_exec_wait os args 1 1 false
      = ((if WEXITSTATUS (os.status 1) = EXIT_FAILURE then (-1 : Int) else 0),
         [Event.fork 1 args false, Event.wait 1]) := by
  simp [fork_exec_wait]

/-- With more than one command the built-in and background branches of
`exec_cmd` are skipped entirely. -/
lemma ec_multi (os : OS) (args : List String) (no_args cmd N : Nat) (h : N ≠ 1) :
    exec_cmd os args no_args cmd N = fork_exec_wait os args cmd N false := by
  simp [exec_cmd, h]

/-- Expected trace of the loop from the second command on: one fork per
command in order, plus the synchronous wait on the last command. -/
def tail_trace (no_cmds : Nat) : List String → Nat → List Event
  | [], _ => []
  | c :: rest, i =>
    [Event.fork (i + 1) (tokenize c ' ') false]
      ++ (if i + 1 = no_cmds then [Event.wait no_cmds] else [])
      ++ tail_trace no_cmds rest (i + 1)

/-- Characterization of `exec_stages` from the second command on (start
index `i ≥ 1`), when every remaining command has at least one argument:
the loop forks every remaining stage, and the returned failed-command
index is `no_cmds` exactly when the synchronous wait on the last stage
observes `EXIT_FAILURE`, else 0. -/
lemma tail_char (os : OS) (N : Nat) (rest : List String) :
    ∀ i : Nat, 1 ≤ i → i + rest.length = N →
    (∀ c ∈ rest, tokenize c ' ' ≠ []) →
    exec_stages os N rest i
      = ((if rest ≠ [] ∧ WEXITSTATUS (os.status N) = EXIT_FAILURE then N else 0),
         tail_trace N rest i) := by
  induction rest with
  | nil =>
    intro i _ _ _
    simp [exec_stages, tail_trace]
  | cons c rest ih =>
    intro i hi hlen hne
    have hc : tokenize c ' ' ≠ [] := hne c (List.mem_cons_self _ _)
    have hlc : ¬ (tokenize c ' ').length = 0 := by
      simpa [List.length_eq_zero] using hc
    have hlen' : i + (rest.length + 1) = N := by simpa using hlen
    have hN1 : N ≠ 1 := by omega
    by_cases hr : rest = []
    · subst hr
      have hiN : i + 1 = N := by simpa using hlen'
      rw [exec_stages]
      simp only [hlc, if_false]
      rw [ec_multi os _ _ _ _ hN1, hiN, few_last os _ N (by omega)]
      by_cases hw : WEXITSTATUS (os.status N) = EXIT_FAILURE
      · simp [hw, tail_trace, hiN]
      · simp [hw, exec_stages, tail_trace, hiN]
    · have hrl : 1 ≤ rest.length := List.length_pos.mpr hr
      have hiN : i + 1 ≠ N := by omega
      rw [exec_stages]
      simp only [hlc, if_false]
      rw [ec_multi os _ _ _ _ hN1, few_mid os _ (i + 1) N (by omega) hiN]
      rw [ih (i + 1) (by omega) (by omega)
        (fun d hd => hne d (List.mem_cons_of_mem _ hd))]
      simp [tail_trace, hiN, hr]

/-- Full characterization of a multi-command pipeline run with non-empty
stages: the pipes are created first, then one fork per stage in order,
and the result is decided by the last stage's wait status alone. -/
lemma exec_cmdline_char_multi (os : OS) (line : String) (c : String)
    (rest : List String) (hcr : tokenize line '|' = c :: rest) (hrne : rest ≠ [])
    (hne : ∀ d ∈ tokenize line '|', tokenize d ' ' ≠ []) :
    exec_cmdline os line
      = ((if WEXITSTATUS (os.status (rest.length + 1)) = EXIT_FAILURE
          then rest.length + 1 else 0),
         ((List.range rest.length).map Event.createPipe)
           ++ [Event.fork 1 (tokenize c ' ') false]
           ++ tail_trace (rest.length + 1) rest 1) := by
  have hc : tokenize c ' ' ≠ [] := hne c (by rw [hcr]; exact List.mem_cons_self _ _)
  have hlc : ¬ (tokenize c ' ').length = 0 := by
    simpa [List.length_eq_zero] using hc
  have hrl : 1 ≤ rest.length := List.length_pos.mpr hrne
  unfold exec_cmdline
  rw [hcr]
  rw [exec_stages]
  simp only [hlc, if_false]
  rw [ec_multi os (tokenize c ' ') (tokenize c ' ').length (0 + 1) (c :: rest).length
    (by simp only [List.length_cons]; omega)]
  rw [few_first os _ _ (by simp only [List.length_cons]; omega)]
  rw [tail_char os _ rest 1 le_rfl (by simp only [List.length_cons]; omega)
    (fun d hd => hne d (by rw [hcr]; exact List.mem_cons_of_mem _ hd))]
  simp [hrne]

/-- C1: for a multi-stage foreground pipeline (every stage non-empty),
`exec_cmdline` reports failure — returning the last stage's index —
exactly when the synchronous wait on the last stage observes a status
whose exit code is `EXIT_FAILURE`; the statuses of all earlier stages
(in particular an exec failure there) are never consulted, so a
successful last stage always yields result 0. -/
theorem exec_cmdline_fails_iff_last_stage (os : OS) (line : String)
    (h2 : 2 ≤ (tokenize line '|').length)
    (hne : ∀ c ∈ tokenize line '|', tokenize c ' ' ≠ []) :
    (exec_cmdline os line).1
      = if WEXITSTATUS (os.status (tokenize line '|').length) = EXIT_FAILURE
        then (tokenize line '|').length else 0 := by
  obtain ⟨c, rest, hcr⟩ : ∃ c rest, tokenize line '|' = c :: rest := by
    cases h : tokenize line '|' with
    | nil => rw [h] at h2; simp at h2
    | cons a b => exact ⟨a, b, rfl⟩
  have hrne : rest ≠ [] := by
    intro h
    rw [hcr, h] at h2
    simp at h2
  have hN : (tokenize line '|').length = rest.length + 1 := by rw [hcr]; simp
  rw [exec_cmdline_char_multi os line c rest hcr hrne hne, hN]

/-- Witness for C1: in `a | b` with the first stage's status an exec
failure (exit code 1) and the second stage's status success, the
pipeline is reported as succeeded. -/
theorem exec_cmdline_fails_iff_last_stage_witness :
    (exec_cmdline ⟨fun i => if i = 2 then 0 else 256⟩ "a | b").1 = 0 := by
  have h := exec_cmdline_fails_iff_last_stage ⟨fun i => if i = 2 then 0 else 256⟩
    "a | b" (by decide) (by decide)
  rw [h]
  decide

/-! ### Trace-shape lemmas -/

/-- Pipe-creation events are kept whole by the pipe filter. -/
lemma pipes_filter (l : List Nat) :
    ((l.map Event.createPipe).filter Event.isCreatePipe) = l.map Event.createPipe := by
  induction l with
  | nil => simp
  | cons a l ih => simp [Event.isCreatePipe, ih]

/-- Pipe-creation events are dropped whole by the non-pipe filter. -/
lemma pipes_filter_non (l : List Nat) :
    ((l.map Event.createPipe).filter (fun e => !e.isCreatePipe)) = [] := by
  induction l with
  | nil => simp
  | cons a l ih => simp [Event.isCreatePipe, ih]

/-- Pipe-creation events carry no fork stage. -/
lemma pipes_filterMap (l : List Nat) :
    ((l.map Event.createPipe).filterMap forkStage) = [] := by
  induction l with
  | nil => simp
  | cons a l ih => simp [forkStage, ih]

/-- The loop trace from the second command on contains no pipe creation. -/
lemma tail_trace_filter_pipe (N : Nat) (rest : List String) :
    ∀ i, (tail_trace N rest i).filter Event.isCreatePipe = [] := by
  induction rest with
  | nil => intro i; simp [tail_trace]
  | cons c rest ih =>
    intro i
    by_cases h : i + 1 = N <;> simp [tail_trace, h, Event.isCreatePipe, ih]

/-- No event of the loop trace from the second command on is a pipe
creation. -/
lemma tail_trace_no_pipe (N : Nat) (rest : List String) :
    ∀ i, ∀ e ∈ tail_trace N rest i, e.isCreatePipe = false := by
  induction rest with
  | nil => intro i e he; simp [tail_trace] at he
  | cons c rest ih =>
    intro i e he
    rw [tail_trace] at he
    simp only [List.mem_append, List.mem_singleton] at he
    rcases he with (he | he) | he
    · subst he; rfl
    · by_cases h : i + 1 = N
      · rw [if_pos h] at he
        simp only [List.mem_singleton] at he
        subst he; rfl
      · rw [if_neg h] at he
        simp at he
    · exact ih (i + 1) e he

/-- The loop trace from the second command on is untouched by the
non-pipe filter. -/
lemma tail_trace_filter_nonpipe (N : Nat) (rest : List String) :
    ∀ i, (tail_trace N rest i).filter (fun e => !e.isCreatePipe) = tail_trace N rest i := by
  intro i
  refine List.filter_eq_self.mpr (fun e he => ?_)
  simp [tail_trace_no_pipe N rest i e he]

/-- The loop from the second command on forks exactly the remaining
stages, in increasing order of stage index. -/
lemma tail_trace_forks (N : Nat) (rest : List String) :
    ∀ i, (tail_trace N rest i).filterMap forkStage = List.range' (i + 1) rest.length := by
  induction rest with
  | nil => intro i; simp [tail_trace]
  | cons c rest ih =>
    intro i
    by_cases h : i + 1 = N <;>
      simp [tail_trace, h, forkStage, ih, List.range'_succ]

/-- Trace shape of a single non-built-in command: exactly one fork (of
stage 1), no pipe creation. -/
lemma ec_single_snd (os : OS) (args : List String) (hne : args ≠ [])
    (hnb : args.headD "" ∉ (["cd", "checkEnv", "exit", "fg"] : List String))
    (hamp : args ≠ ["&"]) :
    ((exec_cmd os args args.length 1 1).2).filter Event.isCreatePipe = []
    ∧ ((exec_cmd os args args.length 1 1).2).filterMap forkStage = [1]
    ∧ ((exec_cmd os args args.length 1 1).2).filter (fun e => !e.isCreatePipe)
        = (exec_cmd os args args.length 1 1).2 := by
  have h1 : ¬ args.headD "" = "cd" := fun h => hnb (by rw [h]; decide)
  have h2 : ¬ args.headD "" = "checkEnv" := fun h => hnb (by rw [h]; decide)
  have h3 : ¬ args.headD "" = "exit" := fun h => hnb (by rw [h]; decide)
  have h4 : ¬ args.headD "" = "fg" := fun h => hnb (by rw [h]; decide)
  by_cases hl : args.getLastD "" = "&"
  · have hlen : 2 ≤ args.length := by
      rcases args with _ | ⟨a, rest⟩
      · exact absurd rfl hne
      · rcases rest with _ | ⟨b, rest'⟩
        · exact absurd (by simpa using hl) (by simpa using hamp)
        · simp
    have hcall : exec_cmd os args args.length 1 1
        = fork_exec_wait os (args.take (args.length - 1)) 1 1 true := by
      unfold exec_cmd
      rw [if_pos rfl, if_neg h1, if_neg h2, if_neg h3, if_neg h4, if_pos hl, if_pos hlen]
    rw [hcall, few_single_bg]
    simp
  · have hcall : exec_cmd os args args.length 1 1
        = fork_exec_wait os args 1 1 false := by
      unfold exec_cmd
      rw [if_pos rfl, if_neg h1, if_neg h2, if_neg h3, if_neg h4, if_neg hl]
    rw [hcall, few_single_fg]
    simp

/-- C2: for every pipeline of N stages (1 ≤ N ≤ 63) whose stages all
have at least one argument and whose single stage, if N = 1, is neither a
built-in nor a bare background marker, the run creates exactly N − 1
pipes, all of them before any fork (the trace is the pipe creations
followed by the pipe-free remainder), and forks exactly N children in
strict stage order 1..N. -/
theorem exec_cmdline_pipes_and_fork_order (os : OS) (line : String)
    (h1 : 1 ≤ (tokenize line '|').length) (h63 : (tokenize line '|').length ≤ 63)
    (hne : ∀ c ∈ tokenize line '|', tokenize c ' ' ≠ [])
    (hsingle : (tokenize line '|').length = 1 →
      (tokenize ((tokenize line '|').headD "") ' ').headD ""
          ∉ (["cd", "checkEnv", "exit", "fg"] : List String)
        ∧ tokenize ((tokenize line '|').headD "") ' ' ≠ ["&"]) :
    ((exec_cmdline os line).2).filter Event.isCreatePipe
        = (List.range ((tokenize line '|').length - 1)).map Event.createPipe
    ∧ ((exec_cmdline os line).2).filterMap forkStage
        = List.range' 1 (tokenize line '|').length
    ∧ (exec_cmdline os line).2
        = ((exec_cmdline os line).2).filter Event.isCreatePipe
          ++ ((exec_cmdline os line).2).filter (fun e => !e.isCreatePipe) := by
  obtain ⟨c, rest, hcr⟩ : ∃ c rest, tokenize line '|' = c :: rest := by
    cases h : tokenize line '|' with
    | nil => rw [h] at h1; simp at h1
    | cons a b => exact ⟨a, b, rfl⟩
  by_cases hrne : rest = []
  · subst hrne
    have hc : tokenize c ' ' ≠ [] := hne c (by rw [hcr]; exact List.mem_cons_self _ _)
    have hlc : ¬ (tokenize c ' ').length = 0 := by
      simpa [List.length_eq_zero] using hc
    obtain ⟨hnb, hamp⟩ := hsingle (by rw [hcr]; rfl)
    rw [hcr] at hnb
    simp only [List.headD_cons] at hnb
    obtain ⟨hf1, hf2, hf3⟩ := ec_single_snd os (tokenize c ' ') hc hnb
      (by rw [hcr] at hamp; simpa using hamp)
    have htr : (exec_cmdline os line).2 = (exec_cmd os (tokenize c ' ')
        (tokenize c ' ').length 1 1).2 := by
      unfold exec_cmdline
      rw [hcr, exec_stages]
      simp only [hlc, if_false, List.length_cons, List.length_nil, zero_add]
      by_cases hp : (exec_cmd os (tokenize c ' ') (tokenize c ' ').length (0 + 1) 1).1 = -1 <;>
        simp [hp, exec_stages]
    rw [htr, hcr]
    refine ⟨by simpa using hf1, by simpa using hf2, ?_⟩
    rw [hf1, hf3]
    simp
  · have hchar := exec_cmdline_char_multi os line c rest hcr hrne hne
    have hN : (tokenize line '|').length = rest.length + 1 := by rw [hcr]; simp
    rw [hchar, hN]
    refine ⟨?_, ?_, ?_⟩
    · simp [List.filter_append, pipes_filter, tail_trace_filter_pipe]
    · simp [List.filterMap_append, pipes_filterMap, tail_trace_forks, List.range'_succ]
    · simp [List.filter_append, pipes_filter, pipes_filter_non, tail_trace_filter_pipe,
        tail_trace_filter_nonpipe]

/-- Witness for C2: a 3-stage pipeline creates pipes 0 and 1 first and
forks stages 1, 2, 3 in order. -/
theorem exec_cmdline_pipes_and_fork_order_witness :
    ((exec_cmdline ⟨fun _ => 0⟩ "a | b | c").2).filterMap forkStage = [1, 2, 3] := by
  have h := exec_cmdline_pipes_and_fork_order ⟨fun _ => 0⟩ "a | b | c"
    (by decide) (by decide) (by decide) (by decide)
  rw [h.2.1]
  decide

/-! ### Single-step unfoldings of the loop -/

/-- One loop step at the first command (index 0) of a multi-command
pipeline with a non-empty command: pipes, fork of stage 1, continue. -/
lemma exec_stages_cons_first (os : OS) (N : Nat) (c : String) (rest : List String)
    (hne : tokenize c ' ' ≠ []) (hN2 : 2 ≤ N) :
    exec_stages os N (c :: rest) 0
      = ((exec_stages os N rest 1).1,
         ((List.range (N - 1)).map Event.createPipe)
           ++ [Event.fork 1 (tokenize c ' ') false]
           ++ (exec_stages os N rest 1).2) := by
  have hlc : ¬ (tokenize c ' ').length = 0 := by
    simpa [List.length_eq_zero] using hne
  rw [exec_stages]
  simp only [Nat.zero_add, hlc, if_false]
  rw [ec_multi os (tokenize c ' ') (tokenize c ' ').length 1 N (by omega),
    few_first os (tokenize c ' ') N hN2]
  dsimp only
  rw [if_neg (by decide : ¬ ((0 : Int) = -1))]

/-- One loop step at a non-first, non-last command with a non-empty
command: fork of stage `i + 1`, continue. -/
lemma exec_stages_cons_mid (os : OS) (N : Nat) (c : String) (rest : List String)
    (i : Nat) (hne : tokenize c ' ' ≠ []) (hi : 1 ≤ i) (hN1 : N ≠ 1)
    (hiN : i + 1 ≠ N) :
    exec_stages os N (c :: rest) i
      = ((exec_stages os N rest (i + 1)).1,
         [Event.fork (i + 1) (tokenize c ' ') false]
           ++ (exec_stages os N rest (i + 1)).2) := by
  have hlc : ¬ (tokenize c ' ').length = 0 := by
    simpa [List.length_eq_zero] using hne
  rw [exec_stages]
  simp only [hlc, if_false]
  rw [ec_multi os (tokenize c ' ') (tokenize c ' ').length (i + 1) N hN1,
    few_mid os (tokenize c ' ') (i + 1) N (by omega) hiN]
  dsimp only
  rw [if_neg (by decide : ¬ ((0 : Int) = -1))]

/-! ### Failure at an empty stage -/

/-- Running the loop from index `j ≥ 1` over commands `good ++ bad :: post`
where the `good` commands are non-empty and `bad` tokenizes to zero
arguments: the loop stops at `bad`, reports its 1-based index, and forks
only the `good` stages (all of strictly smaller index). -/
lemma stages_fail (os : OS) (N : Nat) (bad : String) (post : List String)
    (hbad : tokenize bad ' ' = []) :
    ∀ (good : List String) (j : Nat), 1 ≤ j →
    j + (good.length + 1 + post.length) = N →
    (∀ c ∈ good, tokenize c ' ' ≠ []) →
    (exec_stages os N (good ++ bad :: post) j).1 = j + good.length + 1
    ∧ ∀ s ∈ ((exec_stages os N (good ++ bad :: post) j).2).filterMap forkStage,
        s < j + good.length + 1 := by
  intro good
  induction good with
  | nil =>
    intro j hj hlen hne
    have hl0 : (tokenize bad ' ').length = 0 := by rw [hbad]; rfl
    simp only [List.nil_append]
    rw [exec_stages]
    simp [hl0]
  | cons c good ih =>
    intro j hj hlen hgood
    have hc : tokenize c ' ' ≠ [] := hgood c (List.mem_cons_self _ _)
    have hlc : ¬ (tokenize c ' ').length = 0 := by
      simpa [List.length_eq_zero] using hc
    have hlen' : j + (good.length + 2 + post.length) = N := by
      simp only [List.length_cons] at hlen
      omega
    have hjN : j + 1 ≠ N := by omega
    simp only [List.cons_append]
    rw [exec_stages_cons_mid os N c (good ++ bad :: post) j hc hj (by omega) hjN]
    obtain ⟨ih1, ih2⟩ := ih (j + 1) (by omega) (by omega)
      (fun d hd => hgood d (List.mem_cons_of_mem _ hd))
    constructor
    · dsimp only
      rw [ih1]
      simp only [List.length_cons]
      omega
    · dsimp only
      intro s hs
      simp only [List.singleton_append, List.filterMap_cons, forkStage_fork,
        List.mem_cons] at hs
      simp only [List.length_cons]
      rcases hs with rfl | hs
      · omega
      · have := ih2 s hs
        omega

/-- C3: if the commands of a line are `good ++ bad :: post` with every
command of `good` non-empty and `bad` tokenizing to zero arguments —
so the i-th stage, i = `good.length + 1`, is the first empty one —
`exec_cmdline` returns i, and every forked stage has index < i: no
process is spawned for stage i or any later stage. -/
theorem exec_cmdline_empty_stage (os : OS) (line : String) (good : List String)
    (bad : String) (post : List String)
    (hcr : tokenize line '|' = good ++ bad :: post)
    (hgood : ∀ c ∈ good, tokenize c ' ' ≠ [])
    (hbad : tokenize bad ' ' = []) :
    (exec_cmdline os line).1 = good.length + 1
    ∧ ∀ s ∈ ((exec_cmdline os line).2).filterMap forkStage, s < good.length + 1 := by
  unfold exec_cmdline
  rw [hcr]
  cases good with
  | nil =>
    have hl0 : (tokenize bad ' ').length = 0 := by rw [hbad]; rfl
    simp only [List.nil_append]
    rw [exec_stages]
    simp [hl0]
  | cons c good' =>
    have hc : tokenize c ' ' ≠ [] := hgood c (List.mem_cons_self _ _)
    simp only [List.cons_append]
    rw [exec_stages_cons_first os (c :: (good' ++ bad :: post)).length c
      (good' ++ bad :: post) hc (by simp only [List.length_cons, List.length_append]; omega)]
    obtain ⟨ih1, ih2⟩ := stages_fail os (c :: (good' ++ bad :: post)).length bad post
      hbad good' 1 le_rfl (by simp only [List.length_cons, List.length_append]; omega)
      (fun d hd => hgood d (List.mem_cons_of_mem _ hd))
    constructor
    · dsimp only
      rw [ih1]
      simp only [List.length_cons]
      omega
    · dsimp only
      intro s hs
      simp only [List.filterMap_append, List.mem_append] at hs
      simp only [List.length_cons]
      rcases hs with (hs | hs) | hs
      · rw [pipes_filterMap] at hs
        simp at hs
      · simp only [List.filterMap_cons, forkStage_fork, List.filterMap_nil,
          List.mem_singleton] at hs
        omega
      · have := ih2 s hs
        omega

/-- Witness for C3: in `ls | | wc` the second stage is empty; the run
returns 2 and only stage 1 is forked. -/
theorem exec_cmdline_empty_stage_witness :
    (exec_cmdline ⟨fun _ => 0⟩ "ls | | wc").1 = 2 := by
  have h := exec_cmdline_empty_stage ⟨fun _ => 0⟩ "ls | | wc" ["ls "] " " [" wc"]
    (by decide) (by decide) (by decide)
  simpa using h.1

/-! ### Single-stage background marker and built-in arity -/

/-- C4: a single-stage command that is not a recognized built-in and
whose final argument is the literal `&` (with at least one preceding
argument) is run through `fork_exec_wait` in background mode with the
marker removed from the argument vector; a single-stage command whose
only argument is `&` fails with no action at all. -/
theorem exec_cmd_background_marker (os : OS) (args : List String) (n : Nat)
    (hn : n = args.length)
    (hnb : args.headD "" ∉ (["cd", "checkEnv", "exit", "fg"] : List String))
    (hlast : args.getLastD "" = "&") (h2 : 2 ≤ n) :
    exec_cmd os args n 1 1 = fork_exec_wait os args.dropLast 1 1 true
    ∧ exec_cmd os ["&"] 1 1 1 = (-1, []) := by
  constructor
  · have h1 : ¬ args.headD "" = "cd" := fun h => hnb (by rw [h]; decide)
    have h2' : ¬ args.headD "" = "checkEnv" := fun h => hnb (by rw [h]; decide)
    have h3 : ¬ args.headD "" = "exit" := fun h => hnb (by rw [h]; decide)
    have h4 : ¬ args.headD "" = "fg" := fun h => hnb (by rw [h]; decide)
    unfold exec_cmd
    rw [if_pos rfl, if_neg h1, if_neg h2', if_neg h3, if_neg h4, if_pos hlast,
      if_pos h2, hn, List.dropLast_eq_take]
  · unfold exec_cmd
    rw [if_pos rfl, if_neg (by decide), if_neg (by decide), if_neg (by decide),
      if_neg (by decide), if_pos (by decide), if_neg (by decide)]

/-- Witness for C4: `ls &` is forked in background with argv `ls`. -/
theorem exec_cmd_background_marker_witness :
    exec_cmd ⟨fun _ => 0⟩ ["ls", "&"] 2 1 1 = fork_exec_wait ⟨fun _ => 0⟩ ["ls"] 1 1 true := by
  have h := exec_cmd_background_marker ⟨fun _ => 0⟩ ["ls", "&"] 2 rfl
    (by decide) (by decide) (by decide)
  simpa using h.1

/-- C7: with a single-stage pipeline, each built-in name is dispatched
exactly on its argument count (`cd` with 1 or 2, `checkEnv` with 1 or 2,
`exit` with 1, `fg` with 2) and any other count fails the stage with an
empty trace — nothing spawned; with more than one stage the built-in
(and background) recognition is skipped entirely and the stage goes to
`fork_exec_wait`. -/
theorem exec_cmd_builtin_arity (os : OS) (args : List String) (n cmd m : Nat)
    (hn : n = args.length) (h1 : 1 ≤ n) :
    (args.headD "" = "cd" →
      exec_cmd os args n cmd 1
        = if n = 1 ∨ n = 2 then (0, [Event.builtin "cd"]) else (-1, []))
    ∧ (args.headD "" = "checkEnv" →
      exec_cmd os args n cmd 1
        = if n = 1 ∨ n = 2 then (0, [Event.builtin "checkEnv"]) else (-1, []))
    ∧ (args.headD "" = "exit" →
      exec_cmd os args n cmd 1
        = if n = 1 then (0, [Event.builtin "exit"]) else (-1, []))
    ∧ (args.headD "" = "fg" →
      exec_cmd os args n cmd 1
        = if n = 2 then (0, [Event.builtin "fg"]) else (-1, []))
    ∧ (m ≠ 1 → exec_cmd os args n cmd m = fork_exec_wait os args cmd m false) := by
  refine ⟨?_, ?_, ?_, ?_, fun hm => ec_multi os args n cmd m hm⟩
  · intro h
    unfold exec_cmd
    rw [if_pos rfl, if_pos h]
  · intro h
    have hcd : ¬ args.headD "" = "cd" := by rw [h]; decide
    unfold exec_cmd
    rw [if_pos rfl, if_neg hcd, if_pos h]
    by_cases hn2 : n ≤ 2
    · rw [if_pos hn2, if_pos (by omega)]
    · rw [if_neg hn2, if_neg (by omega)]
  · intro h
    have hcd : ¬ args.headD "" = "cd" := by rw [h]; decide
    have hce : ¬ args.headD "" = "checkEnv" := by rw [h]; decide
    unfold exec_cmd
    rw [if_pos rfl, if_neg hcd, if_neg hce, if_pos h]
  · intro h
    have hcd : ¬ args.headD "" = "cd" := by rw [h]; decide
    have hce : ¬ args.headD "" = "checkEnv" := by rw [h]; decide
    have hex : ¬ args.headD "" = "exit" := by rw [h]; decide
    unfold exec_cmd
    rw [if_pos rfl, if_neg hcd, if_neg hce, if_neg hex, if_pos h]

/-- Witness for C7: `cd` with three arguments fails with no spawn. -/
theorem exec_cmd_builtin_arity_witness :
    exec_cmd ⟨fun _ => 0⟩ ["cd", "a", "b"] 3 1 1 = (-1, []) := by
  have h := (exec_cmd_builtin_arity ⟨fun _ => 0⟩ ["cd", "a", "b"] 3 1 1 rfl
    (by decide)).1 rfl
  rw [h]
  decide

/-- C9: a single-stage background command (trailing `&`, not a built-in)
makes `exec_cmd` return 0 for every status oracle — the parent performs
no synchronous wait, so even a child that exits with `EXIT_FAILURE`
(e.g. a failed exec) never affects the reported result. -/
theorem exec_cmd_background_returns_zero (os : OS) (args : List String) (n : Nat)
    (hn : n = args.length)
    (hnb : args.headD "" ∉ (["cd", "checkEnv", "exit", "fg"] : List String))
    (hlast : args.getLastD "" = "&") (h2 : 2 ≤ n) :
    (exec_cmd os args n 1 1).1 = 0
    ∧ ∀ e ∈ (exec_cmd os args n 1 1).2, e.isWait = false := by
  have h1 : ¬ args.headD "" = "cd" := fun h => hnb (by rw [h]; decide)
  have h2' : ¬ args.headD "" = "checkEnv" := fun h => hnb (by rw [h]; decide)
  have h3 : ¬ args.headD "" = "exit" := fun h => hnb (by rw [h]; decide)
  have h4 : ¬ args.headD "" = "fg" := fun h => hnb (by rw [h]; decide)
  have hcall : exec_cmd os args n 1 1
      = fork_exec_wait os (args.take (n - 1)) 1 1 true := by
    unfold exec_cmd
    rw [if_pos rfl, if_neg h1, if_neg h2', if_neg h3, if_neg h4, if_pos hlast, if_pos h2]
  rw [hcall, few_single_bg]
  exact ⟨rfl, by simp⟩

/-- Witness for C9: `sleep 5 &` under an oracle where every stage's
status is an exec failure still reports success. -/
theorem exec_cmd_background_returns_zero_witness :
    (exec_cmd ⟨fun _ => 256⟩ ["sleep", "5", "&"] 3 1 1).1 = 0 :=
  (exec_cmd_background_returns_zero ⟨fun _ => 256⟩ ["sleep", "5", "&"] 3 rfl
    (by decide) (by decide) (by decide)).1

/-! ### Terminal reclaim, reaping, and checkEnv -/

/-- C5: every `c_wait` call — whatever the waited status (exited,
signaled, or merely stopped), whether the blocking `waitpid` yielded a
pid, whether a stopwatch was running, and whether the call continued a
background child — ends by setting the terminal's foreground process
group back to the shell's own group: the reclaim is the last terminal
action on every path. -/
theorem c_wait_reclaims_terminal (k : WaitKernel) (c_pid : Nat)
    (hasTimer cont : Bool) :
    ((c_wait k c_pid hasTimer cont).2).getLast?
      = some (TermEvent.setFgPgrp k.shellPgid) := by
  unfold c_wait
  dsimp only
  rw [show ∀ l₁ l₂ : List TermEvent,
      l₁ ++ l₂ ++ [TermEvent.setFgPgrp k.shellPgid]
        = (l₁ ++ l₂) ++ [TermEvent.setFgPgrp k.shellPgid] from fun _ _ => rfl,
    List.getLast?_concat]

/-- C6: the reaping sweep drains exactly the pending state changes: every
pending (pid, status) transition is reported exactly once, the pending
queue is left empty, and a second sweep right after reports nothing. -/
theorem sigchld_handler_idempotent (pending : List (Nat × Nat)) :
    (sigchld_handler pending).1 = pending
    ∧ (sigchld_handler pending).2 = []
    ∧ sigchld_handler ((sigchld_handler pending).2) = ([], []) := by
  have h : ∀ l : List (Nat × Nat),
      (sigchld_handler l).1 = l ∧ (sigchld_handler l).2 = [] := by
    intro l
    induction l with
    | nil => exact ⟨rfl, rfl⟩
    | cons e p ih =>
      rw [sigchld_handler]
      exact ⟨by rw [ih.1], ih.2⟩
  exact ⟨(h pending).1, (h pending).2, by rw [(h pending).2]; rfl⟩

/-- C8: `check_env` runs its first listing line with the pager taken from
the `PAGER` environment value when one is set and with `less` otherwise;
and when the pager was `less` and that first run fails at its last
command — the pager stage, whose index equals the stage count — it reruns
the listing with `more`. -/
theorem check_env_pager_fallback (os : OS) (arg1 : Option String) (p : String) :
    ((check_env os (some p) arg1).map Prod.fst).head? = some (get_env_cmd arg1 p)
    ∧ ((check_env os none arg1).map Prod.fst).head? = some (get_env_cmd arg1 "less")
    ∧ ((exec_cmdline os (get_env_cmd arg1 "less")).1 = (if arg1 = none then 3 else 4) →
        (check_env os none arg1).map Prod.fst
          = [get_env_cmd arg1 "less", get_env_cmd arg1 "more"]) := by
  refine ⟨?_, ?_, ?_⟩
  · unfold check_env
    dsimp only
    repeat' split
    all_goals simp_all
  · unfold check_env
    dsimp only
    repeat' split
    all_goals simp_all
  · intro h
    unfold check_env
    dsimp only
    rw [if_pos ⟨h, rfl⟩]
    simp

/-- Witness for C8: with `PAGER` unset and an oracle failing every
synchronous wait, the listing is run with `less` and rerun with `more`. -/
theorem check_env_pager_fallback_witness :
    (check_env ⟨fun _ => 256⟩ none none).map Prod.fst
      = ["printenv | sort | less", "printenv | sort | more"] := by
  have h := (check_env_pager_fallback ⟨fun _ => 256⟩ none "x").2.2 (by decide)
  rw [h]
  decide

/-- C10: the line `check_env` submits is exactly
`printenv | sort | <pager>` without a filter argument and exactly
`printenv | sort | grep <filter> | <pager>` with one — the filter stage
after the sort stage — and every composed line is run by a nested call of
`exec_cmdline`, whose result is what `check_env` inspects. -/
theorem check_env_command_line (os : OS) (pagerEnv : Option String)
    (arg1 : Option String) (f : String) :
    ((check_env os pagerEnv none).map Prod.fst).head?
        = some ("printenv | sort | " ++ pagerEnv.getD "less")
    ∧ ((check_env os pagerEnv (some f)).map Prod.fst).head?
        = some ("printenv | sort | grep " ++ f ++ " | " ++ pagerEnv.getD "less")
    ∧ ∀ pr ∈ check_env os pagerEnv arg1, pr.2 = (exec_cmdline os pr.1).1 := by
  refine ⟨?_, ?_, ?_⟩
  · cases pagerEnv with
    | none =>
      unfold check_env
      dsimp only
      repeat' split
      all_goals simp_all [get_env_cmd]
    | some p =>
      unfold check_env
      dsimp only
      repeat' split
      all_goals simp_all [get_env_cmd]
  · cases pagerEnv with
    | none =>
      unfold check_env
      dsimp only
      repeat' split
      all_goals simp_all [get_env_cmd]
    | some p =>
      unfold check_env
      dsimp only
      repeat' split
      all_goals simp_all [get_env_cmd]
  · intro pr hpr
    have key : ∀ (c : Prop) [Decidable c] (x y : String),
        pr ∈ (if c then [(x, (exec_cmdline os x).1), (y, (exec_cmdline os y).1)]
              else [(x, (exec_cmdline os x).1)]) →
        pr.2 = (exec_cmdline os pr.1).1 := by
      intro c _ x y hm
      by_cases hc : c
      · rw [if_pos hc] at hm
        cases hm with
        | head => rfl
        | tail _ h =>
          cases h with
          | head => rfl
          | tail _ h => cases h
      · rw [if_neg hc] at hm
        cases hm with
        | head => rfl
        | tail _ h => cases h
    unfold check_env at hpr
    dsimp only at hpr
    exact key _ _ _ hpr

/-- Witness for C10: the no-filter listing line is run through
`exec_cmdline` and its recorded result is that nested call's result. -/
theorem check_env_command_line_witness :
    (("printenv | sort | less", 0) : String × Nat).2
      = (exec_cmdline ⟨fun _ => 0⟩ "printenv | sort | less").1 :=
  (check_env_command_line ⟨fun _ => 0⟩ none none "x").2.2
    ("printenv | sort | less", 0) (by decide)

end TjShell
